import Mathlib

/-!
Verification development for the Minstrel-HT rate-adaptation engine
(MinstrelHtWifiManager).  The definitions below are a shallow embedding of
the relevant C++ code: per-rate statistics cells, the statistics-updater
pass, the retry-chain policy, the retransmission-limit check, the RTS-rate
search, the per-rate initialization and the sample-schedule generation.
Times are modelled as natural numbers (nanoseconds for the retry-budget
search, microseconds for ideal transmission durations); machine integers
are modelled as Nat (all quantities involved are small and non-negative,
no overflow occurs on the listed operations).  The constant
MAX_GROUP_RATES lives in a header that is not part of the provided
sources; following the spec (a flat index groupId * MAX_RATES_PER_GROUP +
codingIndex) it is abstracted as an explicit parameter R of the index
helpers.
-/

/-- Per-rate statistics cell, struct HtRateInfo.  perfectTxTime is stored
in microseconds (the unit UpdateStats reads via GetMicroSeconds). -/
structure HtRateInfo where
  numRateAttempt : Nat
  numRateSuccess : Nat
  prob : Nat
  ewmaProb : Nat
  prevNumRateAttempt : Nat
  prevNumRateSuccess : Nat
  numSamplesSkipped : Nat
  successHist : Nat
  attemptHist : Nat
  throughput : Nat
  perfectTxTime : Nat
  retryCount : Nat
  adjustedRetryCount : Nat
deriving DecidableEq, Repr

instance : Inhabited HtRateInfo :=
  ⟨⟨0, 0, 0, 0, 0, 0, 0, 0, 0, 0, 0, 0, 0⟩⟩

/-- Per-group station data, struct GroupInfo. -/
structure GroupInfo where
  m_supported : Bool
  m_index : Nat
  m_col : Nat
  m_maxTpRate : Nat
  m_maxTpRate2 : Nat
  m_maxProbRate : Nat
  m_minstrelTable : List HtRateInfo
deriving DecidableEq, Repr

instance : Inhabited GroupInfo :=
  ⟨⟨false, 0, 0, 0, 0, 0, []⟩⟩

/-- Fields of MinstrelHtWifiRemoteStation used by the modelled HT paths
(retry chain, retransmission-limit check, statistics updater). -/
structure MinstrelHtStation where
  m_maxTpRate : Nat
  m_maxTpRate2 : Nat
  m_maxProbRate : Nat
  m_isSampling : Bool
  m_sampleRate : Nat
  m_longRetry : Nat
  m_txRate : Nat
  m_nSupportedMcs : Nat
  m_mcsTable : List GroupInfo
deriving DecidableEq, Repr

/-- MinstrelHtWifiManager GetRateId: index % MAX_GROUP_RATES
(MAX_GROUP_RATES passed as R). -/
def getRateId (R idx : Nat) : Nat := idx % R

/-- MinstrelHtWifiManager GetGroupId: index / MAX_GROUP_RATES. -/
def getGroupId (R idx : Nat) : Nat := idx / R

/-- MinstrelHtWifiManager GetIndex: groupid * MAX_GROUP_RATES + mcsIndex. -/
def getIndex (R groupid mcsIndex : Nat) : Nat := groupid * R + mcsIndex

/-- Lookup m_mcsTable[GetGroupId idx].m_minstrelTable[GetRateId idx]. -/
def rateInfoAt (st : MinstrelHtStation) (R idx : Nat) : HtRateInfo :=
  ((st.m_mcsTable.getD (getGroupId R idx) default).m_minstrelTable.getD
    (getRateId R idx) default)

/-- Adjusted retry budget of the rate with flat index idx. -/
def adjRetryAt (st : MinstrelHtStation) (R idx : Nat) : Nat :=
  (rateInfoAt st R idx).adjustedRetryCount

/-- MinstrelHtWifiManager DoNeedDataRetransmission, HT branch for an
initialized station: retransmit while m_longRetry is below the sum of the
three active tiers' adjusted retry counts. -/
def doNeedDataRetransmission (R : Nat) (st : MinstrelHtStation) : Bool :=
  if st.m_isSampling = false then
    let maxRetries := adjRetryAt st R st.m_maxTpRate +
                      adjRetryAt st R st.m_maxTpRate2 +
                      adjRetryAt st R st.m_maxProbRate
    if st.m_longRetry ≥ maxRetries then false else true
  else
    let maxRetries := adjRetryAt st R st.m_sampleRate +
                      adjRetryAt st R st.m_maxTpRate +
                      adjRetryAt st R st.m_maxProbRate
    if st.m_longRetry ≥ maxRetries then false else true

/-- Claim C1: for every initialized HT station, DoNeedDataRetransmission
returns false iff m_longRetry is at least the sum of the adjusted retry
budgets of the three active tiers: (sample, best-throughput,
best-probability) when sampling, (best-throughput,
second-best-throughput, best-probability) when not. -/
theorem c1_retry_limit_iff (R : Nat) (st : MinstrelHtStation) :
    doNeedDataRetransmission R st = false ↔
      (if st.m_isSampling then
          adjRetryAt st R st.m_sampleRate + adjRetryAt st R st.m_maxTpRate +
            adjRetryAt st R st.m_maxProbRate
        else
          adjRetryAt st R st.m_maxTpRate + adjRetryAt st R st.m_maxTpRate2 +
            adjRetryAt st R st.m_maxProbRate) ≤ st.m_longRetry := by
  unfold doNeedDataRetransmission
  cases h : st.m_isSampling <;> simp [h]

/-- Increment numRateAttempt of the rate with flat index idx, as done by
DoReportDataFailed on the rate just used. -/
def incAttempt (st : MinstrelHtStation) (R idx : Nat) : MinstrelHtStation :=
  let gi := getGroupId R idx
  let ri := getRateId R idx
  let g := st.m_mcsTable.getD gi default
  let r := g.m_minstrelTable.getD ri default
  { st with
    m_mcsTable := st.m_mcsTable.set gi
      { g with
        m_minstrelTable := g.m_minstrelTable.set ri
          { r with numRateAttempt := r.numRateAttempt + 1 } } }

/-- Reading getD after set: the written value inside bounds, the old value
otherwise. -/
theorem getD_set_general {α : Type} (l : List α) (i j : Nat) (a d : α) :
    (l.set i a).getD j d =
      if i = j ∧ j < l.length then a else l.getD j d := by
  by_cases hij : i = j
  · subst hij
    by_cases hlen : i < l.length
    · simp [List.getD_eq_getElem?_getD, List.getElem?_set, hlen]
    · simp [List.getD_eq_getElem?_getD, List.getElem?_set, hlen,
        List.getElem?_eq_none (Nat.le_of_not_lt hlen)]
  · simp [List.getD_eq_getElem?_getD, List.getElem?_set, hij]

@[simp]
theorem incAttempt_m_isSampling (st : MinstrelHtStation) (R idx : Nat) :
    (incAttempt st R idx).m_isSampling = st.m_isSampling := rfl

@[simp]
theorem incAttempt_m_longRetry (st : MinstrelHtStation) (R idx : Nat) :
    (incAttempt st R idx).m_longRetry = st.m_longRetry := rfl

@[simp]
theorem incAttempt_m_maxTpRate (st : MinstrelHtStation) (R idx : Nat) :
    (incAttempt st R idx).m_maxTpRate = st.m_maxTpRate := rfl

@[simp]
theorem incAttempt_m_maxTpRate2 (st : MinstrelHtStation) (R idx : Nat) :
    (incAttempt st R idx).m_maxTpRate2 = st.m_maxTpRate2 := rfl

@[simp]
theorem incAttempt_m_maxProbRate (st : MinstrelHtStation) (R idx : Nat) :
    (incAttempt st R idx).m_maxProbRate = st.m_maxProbRate := rfl

@[simp]
theorem incAttempt_m_sampleRate (st : MinstrelHtStation) (R idx : Nat) :
    (incAttempt st R idx).m_sampleRate = st.m_sampleRate := rfl

/-- Incrementing an attempt counter leaves every adjusted retry budget
unchanged. -/
@[simp]
theorem adjRetryAt_incAttempt (st : MinstrelHtStation) (R j i : Nat) :
    adjRetryAt (incAttempt st R j) R i = adjRetryAt st R i := by
  unfold adjRetryAt rateInfoAt incAttempt
  simp only [getD_set_general]
  by_cases hg : getGroupId R j = getGroupId R i ∧ getGroupId R i < st.m_mcsTable.length
  · obtain ⟨hg1, hg2⟩ := hg
    simp only [hg1, hg2, and_self, if_true]
    rw [getD_set_general]
    by_cases hr : getRateId R j = getRateId R i ∧
        getRateId R i <
          (st.m_mcsTable.getD (getGroupId R i) default).m_minstrelTable.length
    · obtain ⟨hr1, hr2⟩ := hr
      simp only [hr1, hr2, and_self, if_true]
    · rw [if_neg hr]
  · simp [hg]

/-- Changing only m_longRetry does not change any adjusted retry budget. -/
@[simp]
theorem adjRetryAt_setLongRetry (st : MinstrelHtStation) (R n i : Nat) :
    adjRetryAt { st with m_longRetry := n } R i = adjRetryAt st R i := rfl

/-- Active tier-1 rate of the retry ladder (sample rate when sampling,
best-throughput rate otherwise). -/
def tier1Rate (st : MinstrelHtStation) : Nat :=
  if st.m_isSampling then st.m_sampleRate else st.m_maxTpRate

/-- Active tier-2 rate of the retry ladder (best-throughput rate when
sampling, second-best-throughput rate otherwise). -/
def tier2Rate (st : MinstrelHtStation) : Nat :=
  if st.m_isSampling then st.m_maxTpRate else st.m_maxTpRate2

/-- MinstrelHtWifiManager DoReportDataFailed, HT branch for an initialized
station: increment m_longRetry, increment the attempt counter of the rate
just used, then walk the 3-tier retry ladder; the final else is the fatal
NS_ASSERT_MSG branch, modelled as an error. -/
def doReportDataFailed (R : Nat) (st : MinstrelHtStation) :
    Except String MinstrelHtStation :=
  let st1 : MinstrelHtStation := { st with m_longRetry := st.m_longRetry + 1 }
  let st2 := incAttempt st1 R st1.m_txRate
  if st2.m_isSampling = false then
    if st2.m_longRetry < adjRetryAt st2 R st2.m_maxTpRate then
      Except.ok { st2 with m_txRate := st2.m_maxTpRate }
    else if st2.m_longRetry < adjRetryAt st2 R st2.m_maxTpRate +
        adjRetryAt st2 R st2.m_maxTpRate2 then
      Except.ok { st2 with m_txRate := st2.m_maxTpRate2 }
    else if st2.m_longRetry ≤ adjRetryAt st2 R st2.m_maxTpRate +
        adjRetryAt st2 R st2.m_maxTpRate2 +
        adjRetryAt st2 R st2.m_maxProbRate then
      Except.ok { st2 with m_txRate := st2.m_maxProbRate }
    else
      Except.error "Max retries reached and m_longRetry not cleared properly."
  else
    if st2.m_longRetry < adjRetryAt st2 R st2.m_sampleRate then
      Except.ok { st2 with m_txRate := st2.m_sampleRate }
    else if st2.m_longRetry < adjRetryAt st2 R st2.m_maxTpRate +
        adjRetryAt st2 R st2.m_sampleRate then
      Except.ok { st2 with m_txRate := st2.m_maxTpRate }
    else if st2.m_longRetry ≤ adjRetryAt st2 R st2.m_maxTpRate +
        adjRetryAt st2 R st2.m_sampleRate +
        adjRetryAt st2 R st2.m_maxProbRate then
      Except.ok { st2 with m_txRate := st2.m_maxProbRate }
    else
      Except.error "Max retries reached and m_longRetry not cleared properly."

/-- Claim C2: on a failed attempt whose incremented longRetries stays within
the total budget of the three active tiers, DoReportDataFailed succeeds (the
fatal assertion branch is unreachable) and selects the tier-1 rate below
budget(tier1), the tier-2 rate below budget(tier1)+budget(tier2), and the
best-probability rate up to the sum of all three budgets. -/
theorem c2_retry_chain (R : Nat) (st : MinstrelHtStation)
    (h : st.m_longRetry + 1 ≤
      adjRetryAt st R (tier1Rate st) + adjRetryAt st R (tier2Rate st) +
        adjRetryAt st R st.m_maxProbRate) :
    ∃ stNew, doReportDataFailed R st = Except.ok stNew ∧
      stNew.m_txRate =
        (if st.m_longRetry + 1 < adjRetryAt st R (tier1Rate st) then
          tier1Rate st
        else if st.m_longRetry + 1 < adjRetryAt st R (tier1Rate st) +
            adjRetryAt st R (tier2Rate st) then
          tier2Rate st
        else st.m_maxProbRate) := by
  unfold doReportDataFailed
  simp only [incAttempt_m_isSampling, incAttempt_m_longRetry,
    incAttempt_m_maxTpRate, incAttempt_m_maxTpRate2,
    incAttempt_m_maxProbRate, incAttempt_m_sampleRate,
    adjRetryAt_incAttempt, adjRetryAt_setLongRetry]
  cases hs : st.m_isSampling
  all_goals
    simp only [tier1Rate, tier2Rate, hs] at h ⊢
  all_goals
    simp only [Bool.false_eq_true, Bool.true_eq_false, if_true, if_false,
      ite_true, ite_false] at h ⊢
  all_goals
    split_ifs <;>
      first
        | (exact ⟨_, rfl, by first | rfl | omega⟩)
        | (exfalso; omega)

/-- Concrete station used to witness claim C2. -/
def stC2 : MinstrelHtStation :=
  { m_maxTpRate := 1, m_maxTpRate2 := 0, m_maxProbRate := 0,
    m_isSampling := false, m_sampleRate := 0, m_longRetry := 0,
    m_txRate := 1, m_nSupportedMcs := 2,
    m_mcsTable :=
      [{ m_supported := true, m_index := 0, m_col := 0, m_maxTpRate := 1,
         m_maxTpRate2 := 0, m_maxProbRate := 0,
         m_minstrelTable :=
           [{ numRateAttempt := 0, numRateSuccess := 0, prob := 0,
              ewmaProb := 9000, prevNumRateAttempt := 0,
              prevNumRateSuccess := 0, numSamplesSkipped := 0,
              successHist := 0, attemptHist := 0, throughput := 100,
              perfectTxTime := 200, retryCount := 3,
              adjustedRetryCount := 3 },
            { numRateAttempt := 0, numRateSuccess := 0, prob := 0,
              ewmaProb := 9000, prevNumRateAttempt := 0,
              prevNumRateSuccess := 0, numSamplesSkipped := 0,
              successHist := 0, attemptHist := 0, throughput := 200,
              perfectTxTime := 100, retryCount := 2,
              adjustedRetryCount := 2 }] }] }

/-- Witness for claim C2 at a concrete station: the hypothesis holds and the
first retry goes to the best-throughput rate (index 1). -/
theorem c2_retry_chain_witness :
    stC2.m_longRetry + 1 ≤
        adjRetryAt stC2 8 (tier1Rate stC2) + adjRetryAt stC2 8 (tier2Rate stC2) +
          adjRetryAt stC2 8 stC2.m_maxProbRate ∧
      (doReportDataFailed 8 stC2).map (fun s => s.m_txRate) = Except.ok 1 := by
  refine ⟨by decide, ?_⟩
  obtain ⟨s, hs, ht⟩ := c2_retry_chain 8 stC2 (by decide)
  rw [hs]
  simp only [Except.map, Except.ok.injEq]
  rw [ht]
  decide

/-- Per-rate body of MinstrelHtWifiManager UpdateStats (one statistics pass
for one rate): interval probability, EWMA probability (weight w, the EWMA
attribute, default 75), throughput with the 10 percent cutoff and the
90 percent clamp, counter reset, and the adjusted-retry-count rule.
perfectTxTime is in microseconds; a zero duration is replaced by one
second as in the source. -/
def ratePass (w : Nat) (r : HtRateInfo) : HtRateInfo :=
  let txTime : Nat := if r.perfectTxTime = 0 then 1000000 else r.perfectTxTime
  let r1 : HtRateInfo :=
    if r.numRateAttempt ≠ 0 then
      let tempProb : Nat := r.numRateSuccess * 18000 / r.numRateAttempt
      let ewma : Nat := (tempProb * (100 - w) + r.ewmaProb * w) / 100
      let thr : Nat :=
        if ewma < 10 * 180 then 0
        else if ewma > 90 * 180 then 90 * 180 * (1000000 / txTime)
        else ewma * (1000000 / txTime)
      { r with numSamplesSkipped := 0, prob := tempProb, ewmaProb := ewma,
               throughput := thr }
    else
      { r with numSamplesSkipped := r.numSamplesSkipped + 1 }
  let r2 : HtRateInfo := { r1 with numRateSuccess := 0, numRateAttempt := 0 }
  let adj : Nat :=
    if r2.ewmaProb > 17100 ∨ r2.ewmaProb < 1800 then
      if r2.adjustedRetryCount > 2 then 2 else r2.retryCount
    else r2.retryCount
  let adj2 : Nat := if adj = 0 then 1 else adj
  { r2 with adjustedRetryCount := adj2 }

/-- Rate cell as initialized by RateInit before the retry search (counters
and statistics zeroed, retry counts one), with the given ideal transmission
time in microseconds. -/
def rateZeroInfo (perfectTxTimeUs : Nat) : HtRateInfo :=
  { numRateAttempt := 0, numRateSuccess := 0, prob := 0, ewmaProb := 0,
    prevNumRateAttempt := 0, prevNumRateSuccess := 0, numSamplesSkipped := 0,
    successHist := 0, attemptHist := 0, throughput := 0,
    perfectTxTime := perfectTxTimeUs, retryCount := 1,
    adjustedRetryCount := 1 }

/-- MinstrelHtWifiManager CalculateTimeUnicastPacket: one initial DATA+ACK
exchange plus, for each of the given long retries, another DATA+ACK and half
the current contention window of backoff; the window starts at 31 and is
doubled (capped at 1023) after each retry.  All times in nanoseconds; the
shortRetries argument is unused, as in the source. -/
def calculateTimeUnicastPacket (dataTxNs ackNs slotNs : Nat)
    (shortRetries longRetries : Nat) : Nat :=
  ((List.range longRetries).foldl
    (fun (acc : Nat × Nat) _ =>
      (acc.1 + dataTxNs + ackNs + acc.2 / 2 * slotNs,
       min 1023 ((acc.2 + 1) * 2)))
    (dataTxNs + ackNs, 31)).1

/-- Bounded loop of the RateInit retry search: for retries r, r+1, ... while
fuel lasts, stop as soon as the unicast time exceeds 6 ms, otherwise record
(r, r) as (retryCount, adjustedRetryCount). -/
def rateInitSearchGo (timeOf : Nat → Nat) :
    Nat → Nat → Nat × Nat → Nat × Nat
  | 0, _, acc => acc
  | fuel + 1, r, acc =>
      if timeOf r > 6000000 then acc
      else rateInitSearchGo timeOf fuel (r + 1) (r, r)

/-- RateInit retry search (minstrel.c ath_rate_ctl_reset emulation): start
from (1, 1) and check retries 2..10 against the 6 ms ceiling. -/
def rateInitSearch (dataTxNs ackNs slotNs : Nat) : Nat × Nat :=
  rateInitSearchGo
    (fun retries => calculateTimeUnicastPacket dataTxNs ackNs slotNs 0 retries)
    9 2 (1, 1)

/-- Rate cell after full RateInit per-rate initialization: zeroed cell with
retryCount and adjustedRetryCount from the bounded retry search. -/
def rateInitInfo (perfectTxTimeUs dataTxNs ackNs slotNs : Nat) : HtRateInfo :=
  let counts := rateInitSearch dataTxNs ackNs slotNs
  { rateZeroInfo perfectTxTimeUs with
    retryCount := counts.1, adjustedRetryCount := counts.2 }

/-- Projection of the statistics pass: the EWMA probability becomes the
weighted combination when there were attempts and is unchanged otherwise. -/
theorem ratePass_ewmaProb (w : Nat) (r : HtRateInfo) :
    (ratePass w r).ewmaProb =
      if r.numRateAttempt ≠ 0 then
        (r.numRateSuccess * 18000 / r.numRateAttempt * (100 - w) +
          r.ewmaProb * w) / 100
      else r.ewmaProb := by
  unfold ratePass
  split_ifs <;> rfl

/-- The statistics pass resets the success counter. -/
theorem ratePass_numRateSuccess (w : Nat) (r : HtRateInfo) :
    (ratePass w r).numRateSuccess = 0 := rfl

/-- The statistics pass resets the attempt counter. -/
theorem ratePass_numRateAttempt (w : Nat) (r : HtRateInfo) :
    (ratePass w r).numRateAttempt = 0 := rfl

/-- Concrete rate cell for claim C4: raw retry budget 6, adjusted budget
already capped to 2 by a previous out-of-range pass, ewmaProb 0 (below the
10 percent threshold), no attempts this interval. -/
def rC4 : HtRateInfo :=
  { rateZeroInfo 100 with retryCount := 6, adjustedRetryCount := 6 }

/-- Claim C4 evaluation: starting from a freshly initialized cell with raw
budget 6 and ewmaProb 0 (out of range), the first statistics pass caps the
adjusted budget to 2, but the second pass restores it to the raw budget 6
even though ewmaProb is still out of range, contradicting the cap rule. -/
theorem c4_cap_violated_eval :
    (ratePass 75 rC4).ewmaProb = 0 ∧
      (ratePass 75 rC4).adjustedRetryCount = 2 ∧
      (ratePass 75 (ratePass 75 rC4)).ewmaProb = 0 ∧
      (ratePass 75 (ratePass 75 rC4)).adjustedRetryCount = 6 := by
  decide

/-- Concrete rate cell for claim C5: 100 attempts and 100 successes in the
current interval, prior ewmaProb 0, ideal duration 100 microseconds. -/
def rC5 : HtRateInfo :=
  { rateZeroInfo 100 with numRateAttempt := 100, numRateSuccess := 100 }

/-- Counterexample to claim C5 as stated: a rate with a raw interval
probability of 100 percent (100 of 100) gets throughput 4500 * 10000 from
the EWMA value 4500 (weight 75, prior ewmaProb 0), not the 90-percent
clamped value 16200 * 10000. -/
theorem c5_counterexample :
    rC5.numRateAttempt = 100 ∧ rC5.numRateSuccess = 100 ∧
      rC5.numRateSuccess * 18000 / rC5.numRateAttempt = 18000 ∧
      (ratePass 75 rC5).throughput = 45000000 ∧
      (ratePass 75 rC5).throughput ≠
        90 * 180 * (1000000 / rC5.perfectTxTime) := by
  decide

/-- Claim C5 amended: with 100 attempts and 100 successes in one interval
(raw probability 100 percent of P_MAX) and the default EWMA weight 75, one
statistics pass sets throughput to the EWMA-combined probability
(18000 * 25 + oldEwma * 75) / 100, clamped above at 90 percent of P_MAX,
times 1000000 / idealDuration; the value is never derived from the raw
100 percent probability, and equals the clamped value only when the
combination reaches 16200. -/
theorem c5_throughput_from_ewma (r : HtRateInfo)
    (ha : r.numRateAttempt = 100) (hs : r.numRateSuccess = 100) :
    (ratePass 75 r).throughput =
      min ((18000 * 25 + r.ewmaProb * 75) / 100) 16200 *
        (1000000 / (if r.perfectTxTime = 0 then 1000000
                    else r.perfectTxTime)) := by
  have hewma : (100 * 18000 / 100 * (100 - 75) + r.ewmaProb * 75) / 100 =
      (18000 * 25 + r.ewmaProb * 75) / 100 := by norm_num
  have hlow : 4500 ≤ (18000 * 25 + r.ewmaProb * 75) / 100 := by
    have h1 : (450000 : Nat) / 100 ≤ (450000 + r.ewmaProb * 75) / 100 :=
      Nat.div_le_div_right (Nat.le_add_right _ _)
    simpa using h1
  unfold ratePass
  simp only [ha, hs, if_true, if_false]
  norm_num
  split_ifs with h1 h2 h3 <;> simp_all <;> omega

/-- Witness for the amended claim C5: on the concrete cell rC5 (prior
ewmaProb 0, duration 100 microseconds) the pass yields throughput
4500 * 10000. -/
theorem c5_throughput_from_ewma_witness :
    (ratePass 75 rC5).throughput = 45000000 := by
  have h := c5_throughput_from_ewma rC5 rfl rfl
  rw [h]
  decide

/-- Invariant step of the RateInit retry search: the recorded adjusted
retry count stays at least one. -/
theorem rateInitSearchGo_snd_ge_one (timeOf : Nat → Nat) :
    ∀ (fuel r : Nat) (acc : Nat × Nat), 1 ≤ r → 1 ≤ acc.2 →
      1 ≤ (rateInitSearchGo timeOf fuel r acc).2 := by
  intro fuel
  induction fuel with
  | zero => intro r acc hr hacc; exact hacc
  | succ n ih =>
      intro r acc hr hacc
      unfold rateInitSearchGo
      split_ifs with ht
      · exact hacc
      · exact ih (r + 1) (r, r) (Nat.le_succ_of_le hr) hr

/-- The statistics pass always leaves an adjusted retry count of at least
one (the final floor). -/
theorem one_le_ratePass_adjusted (w : Nat) (r : HtRateInfo) :
    1 ≤ (ratePass w r).adjustedRetryCount := by
  have key : ∀ a : Nat, 1 ≤ (if a = 0 then 1 else a) := by
    intro a
    split_ifs with h
    · exact Nat.le_refl 1
    · exact Nat.one_le_iff_ne_zero.mpr h
  exact key _

/-- Events affecting one rate cell of an initialized HT station:
DoReportDataOk (success and attempt counters incremented),
DoReportDataFailed (attempt counter incremented), and one statistics pass
of UpdateStats (counters reset). -/
inductive TxEvent where
  | ok : TxEvent
  | failed : TxEvent
  | statsPass : TxEvent
deriving DecidableEq, Repr

/-- Effect of one event on a rate cell, from DoReportDataOk,
DoReportDataFailed and UpdateStats. -/
def applyTxEvent (w : Nat) (r : HtRateInfo) : TxEvent → HtRateInfo
  | TxEvent.ok =>
      { r with numRateSuccess := r.numRateSuccess + 1,
               numRateAttempt := r.numRateAttempt + 1 }
  | TxEvent.failed => { r with numRateAttempt := r.numRateAttempt + 1 }
  | TxEvent.statsPass => ratePass w r

/-- Claim C10: numRateSuccess never exceeds numRateAttempt: a success
increments both counters, a failed attempt increments only the attempt
counter, and a statistics pass resets both, so the inequality is preserved
by every event sequence. -/
theorem c10_success_le_attempt (w : Nat) (r0 : HtRateInfo)
    (h : r0.numRateSuccess ≤ r0.numRateAttempt) (evs : List TxEvent) :
    (evs.foldl (applyTxEvent w) r0).numRateSuccess ≤
      (evs.foldl (applyTxEvent w) r0).numRateAttempt := by
  induction evs generalizing r0 with
  | nil => exact h
  | cons e t ih =>
      cases e with
      | ok => exact ih _ (Nat.succ_le_succ h)
      | failed => exact ih _ (Nat.le_succ_of_le h)
      | statsPass =>
          refine ih _ ?_
          show (ratePass w _).numRateSuccess ≤ (ratePass w _).numRateAttempt
          rw [ratePass_numRateSuccess, ratePass_numRateAttempt]

/-- Witness for claim C10 on a concrete event sequence starting from a
freshly initialized cell. -/
theorem c10_success_le_attempt_witness :
    (([TxEvent.ok, TxEvent.failed, TxEvent.ok,
        TxEvent.statsPass, TxEvent.failed].foldl
      (applyTxEvent 75) (rateZeroInfo 100)).numRateSuccess ≤
      ([TxEvent.ok, TxEvent.failed, TxEvent.ok,
        TxEvent.statsPass, TxEvent.failed].foldl
      (applyTxEvent 75) (rateZeroInfo 100)).numRateAttempt) :=
  c10_success_le_attempt 75 (rateZeroInfo 100) (Nat.le_refl 0)
    [TxEvent.ok, TxEvent.failed, TxEvent.ok, TxEvent.statsPass,
     TxEvent.failed]

/-- Per-rate part of MinstrelHtWifiManager UpdateStats over the whole
station table: every rate of every supported group goes through one
statistics pass; unsupported groups are untouched. -/
def updateStatsGroups (w : Nat) (gs : List GroupInfo) : List GroupInfo :=
  gs.map (fun g =>
    if g.m_supported then
      { g with m_minstrelTable := g.m_minstrelTable.map (ratePass w) }
    else g)

/-- Claim C8: the adjusted retry budget is at least 1 for every supported
rate after a statistics-updater pass, and at least 1 right after the
RateInit per-rate initialization. -/
theorem c8_budget_floor :
    (∀ (w : Nat) (gs : List GroupInfo), ∀ g ∈ updateStatsGroups w gs,
      g.m_supported = true → ∀ r ∈ g.m_minstrelTable,
        1 ≤ r.adjustedRetryCount) ∧
    (∀ us d a s : Nat, 1 ≤ (rateInitInfo us d a s).adjustedRetryCount) := by
  constructor
  · intro w gs g hg hsupp r hr
    obtain ⟨g0, hg0, hmap⟩ := List.mem_map.mp hg
    by_cases hs : g0.m_supported
    · rw [if_pos hs] at hmap
      subst hmap
      simp only [List.mem_map] at hr
      obtain ⟨r0, hr0, rfl⟩ := hr
      exact one_le_ratePass_adjusted w r0
    · rw [if_neg hs] at hmap
      subst hmap
      exact absurd hsupp hs
  · intro us d a s
    exact rateInitSearchGo_snd_ge_one _ 9 2 (1, 1) (Nat.le_of_lt Nat.one_lt_two)
      (Nat.le_refl 1)

/-- Concrete supported group used to witness claim C8. -/
def gC8 : GroupInfo :=
  { m_supported := true, m_index := 0, m_col := 0, m_maxTpRate := 0,
    m_maxTpRate2 := 0, m_maxProbRate := 0,
    m_minstrelTable := [rateZeroInfo 100] }

/-- Witness for claim C8 at a concrete group and concrete RateInit
parameters. -/
theorem c8_budget_floor_witness :
    1 ≤ (ratePass 75 (rateZeroInfo 100)).adjustedRetryCount ∧
      1 ≤ (rateInitInfo 100 300000 50000 9000).adjustedRetryCount :=
  ⟨c8_budget_floor.1 75 [gC8]
      { gC8 with m_minstrelTable := [ratePass 75 (rateZeroInfo 100)] }
      (by decide) (by decide) (ratePass 75 (rateZeroInfo 100)) (by decide),
    c8_budget_floor.2 100 300000 50000 9000⟩

/-- Claim C9: ewmaProbability is 0 right after RateInit and stays at most
P_MAX = 18000 across every statistics pass, provided the success counter
never exceeds the attempt counter and the EWMA weight is at most 100 (its
attribute range). -/
theorem c9_ewma_in_range :
    (∀ us d a s : Nat, (rateInitInfo us d a s).ewmaProb = 0) ∧
    (∀ (w : Nat) (r : HtRateInfo), w ≤ 100 →
      r.numRateSuccess ≤ r.numRateAttempt → r.ewmaProb ≤ 18000 →
        (ratePass w r).ewmaProb ≤ 18000) := by
  constructor
  · intro us d a s
    rfl
  · intro w r hw hsr hp
    rw [ratePass_ewmaProb]
    split_ifs with hA
    · have hpos : 0 < r.numRateAttempt := Nat.pos_of_ne_zero hA
      have ht : r.numRateSuccess * 18000 / r.numRateAttempt ≤ 18000 := by
        have h1 : r.numRateSuccess * 18000 ≤ r.numRateAttempt * 18000 :=
          Nat.mul_le_mul_right _ hsr
        have h2 : r.numRateSuccess * 18000 / r.numRateAttempt ≤
            r.numRateAttempt * 18000 / r.numRateAttempt :=
          Nat.div_le_div_right h1
        have h3 : r.numRateAttempt * 18000 / r.numRateAttempt = 18000 :=
          Nat.mul_div_cancel_left 18000 hpos
        omega
      have hnum : r.numRateSuccess * 18000 / r.numRateAttempt * (100 - w) +
          r.ewmaProb * w ≤ 18000 * (100 - w) + 18000 * w :=
        Nat.add_le_add (Nat.mul_le_mul_right _ ht) (Nat.mul_le_mul_right _ hp)
      have hsum : 18000 * (100 - w) + 18000 * w = 1800000 := by
        rw [← Nat.mul_add]
        have : 100 - w + w = 100 := by omega
        rw [this]
      have hdiv : (r.numRateSuccess * 18000 / r.numRateAttempt * (100 - w) +
          r.ewmaProb * w) / 100 ≤ 1800000 / 100 := by
        apply Nat.div_le_div_right
        omega
      simpa using hdiv
    · exact hp

/-- Concrete rate cell for the C9 witness: 40 successes of 50 attempts,
prior ewmaProb 12000. -/
def rC9 : HtRateInfo :=
  { rateZeroInfo 400 with
    numRateAttempt := 50, numRateSuccess := 40, ewmaProb := 12000 }

/-- Witness for claim C9: concrete RateInit parameters and one concrete
statistics pass with 40 of 50 successes. -/
theorem c9_ewma_in_range_witness :
    (rateInitInfo 100 300000 50000 9000).ewmaProb = 0 ∧
      (ratePass 75 rC9).ewmaProb ≤ 18000 :=
  ⟨c9_ewma_in_range.1 100 300000 50000 9000,
    c9_ewma_in_range.2 75 rC9 (by decide) (by decide) (by decide)⟩

/-- First per-group selection loop of UpdateStats: running maxima of
throughput and ewmaProb over mcs indices 0..n-1, each paired with the flat
index GetIndex(j, i); both maxima start at 0 with index GetIndex(j, 0). -/
def groupMaxLoop1 (R j n : Nat) (tbl : List HtRateInfo) :
    (Nat × Nat) × (Nat × Nat) :=
  (List.range n).foldl
    (fun (acc : (Nat × Nat) × (Nat × Nat)) i =>
      let mt : Nat × Nat :=
        if acc.1.1 < (tbl.getD i default).throughput then
          ((tbl.getD i default).throughput, getIndex R j i)
        else acc.1
      let mp : Nat × Nat :=
        if acc.2.1 < (tbl.getD i default).ewmaProb then
          ((tbl.getD i default).ewmaProb, getIndex R j i)
        else acc.2
      (mt, mp))
    ((0, getIndex R j 0), (0, getIndex R j 0))

/-- Second per-group selection loop of UpdateStats: the second-best
throughput index, skipping mcs indices i equal to indexMaxTp.  Note that
the source compares the group-local loop variable i with the flat
index_max_tp. -/
def groupMaxTp2Loop (R j n : Nat) (tbl : List HtRateInfo)
    (indexMaxTp : Nat) : Nat :=
  ((List.range n).foldl
    (fun (acc : Nat × Nat) i =>
      if i ≠ indexMaxTp ∧ acc.1 < (tbl.getD i default).throughput then
        ((tbl.getD i default).throughput, getIndex R j i)
      else acc)
    (0, getIndex R j 0)).2

/-- Per-group best-rate recomputation of UpdateStats for group j (only for
supported groups). -/
def updateGroupMaxRates (R n j : Nat) (g : GroupInfo) : GroupInfo :=
  if g.m_supported then
    let l1 := groupMaxLoop1 R j n g.m_minstrelTable
    { g with
      m_maxTpRate := l1.1.2,
      m_maxTpRate2 := groupMaxTp2Loop R j n g.m_minstrelTable l1.1.2,
      m_maxProbRate := l1.2.2 }
  else g

/-- UpdateStats up to the per-group best-rate recomputation: a statistics
pass on every supported rate, then the three per-group best indices. -/
def updateStatsPerGroup (R n w : Nat) (gs : List GroupInfo) :
    List GroupInfo :=
  (updateStatsGroups w gs).enum.map
    (fun p => updateGroupMaxRates R n p.1 p.2)

/-- Station table for claim C3: group 0 unsupported, group 1 supported with
two rates of distinct positive throughputs 10 and 20 (no attempts this
interval, in-range ewmaProb, so the statistics pass leaves the throughputs
unchanged). -/
def gsC3 : List GroupInfo :=
  [{ m_supported := false, m_index := 0, m_col := 0, m_maxTpRate := 0,
     m_maxTpRate2 := 0, m_maxProbRate := 0, m_minstrelTable := [] },
   { m_supported := true, m_index := 0, m_col := 0, m_maxTpRate := 8,
     m_maxTpRate2 := 8, m_maxProbRate := 8,
     m_minstrelTable :=
       [{ rateZeroInfo 200 with ewmaProb := 9000, throughput := 10 },
        { rateZeroInfo 100 with ewmaProb := 9000, throughput := 20 }] }]

/-- Claim C3 evaluation at the failing input: in supported group 1 (with
MAX_GROUP_RATES = 8, two rates of throughputs 10 and 20), the updater sets
maxTpRate to flat index 9 but also sets secondMaxThroughputRate to 9, not
to the best rate excluding the maximum (flat index 8): the source compares
the group-local mcs index i with the flat index, so the exclusion never
applies in any group with groupId at least 1. -/
theorem c3_secondmax_bug_eval :
    ((updateStatsPerGroup 8 2 75 gsC3).getD 1 default).m_maxTpRate = 9 ∧
      ((updateStatsPerGroup 8 2 75 gsC3).getD 1 default).m_maxTpRate2 = 9 ∧
      ((gsC3.getD 1 default).m_minstrelTable.getD 0 default).throughput = 10 ∧
      ((gsC3.getD 1 default).m_minstrelTable.getD 1 default).throughput = 20 := by
  decide

/-- Last candidate at or below the reference rate, as accumulated by the
RTS-rate search loops of DoGetRtsTxVector. -/
def lastRateLE (rates : List Nat) (lastDataRate : Nat) : Option Nat :=
  rates.foldl
    (fun acc rate => if rate ≤ lastDataRate then some rate else acc) none

/-- MinstrelHtWifiManager DoGetRtsTxVector, HT branch, candidate search:
scan the basic modes for a rate at most the non-HT reference data rate of
the last used rate; if none was found, scan the PHY modes; then the source
executes NS_ASSERT(!rateFound), which is fatal exactly when a candidate was
found (modelled as an error); otherwise the function returns the vector
built from the first supported mode. -/
def doGetRtsTxVectorSearch (basicRates phyModeRates : List Nat)
    (lastDataRate : Nat) : Except String Nat :=
  let found1 : Option Nat := lastRateLE basicRates lastDataRate
  let found : Option Nat :=
    match found1 with
    | some r => some r
    | none => lastRateLE phyModeRates lastDataRate
  match found with
  | some _ => Except.error "assertion failed: rateFound is true"
  | none => Except.ok 0

/-- Accumulating over more rates never loses a found candidate. -/
theorem lastRateLE_foldl_some (last : Nat) (l : List Nat) :
    ∀ v : Nat,
      (l.foldl (fun acc rate => if rate ≤ last then some rate else acc)
        (some v)).isSome = true := by
  induction l with
  | nil => intro v; rfl
  | cons a t ih =>
      intro v
      by_cases h : a ≤ last <;> simp [List.foldl_cons, h, ih]

/-- If some rate in the list is at or below the reference, the search loop
ends with a found candidate. -/
theorem lastRateLE_isSome (last : Nat) (l : List Nat)
    (h : ∃ r ∈ l, r ≤ last) : (lastRateLE l last).isSome = true := by
  unfold lastRateLE
  obtain ⟨r, hr, hrle⟩ := h
  induction l generalizing r with
  | nil => cases hr
  | cons a t ih =>
      rcases List.mem_cons.mp hr with rfl | hrt
      · simp only [List.foldl_cons, if_pos hrle]
        exact lastRateLE_foldl_some last t r
      · by_cases ha : a ≤ last
        · simp only [List.foldl_cons, if_pos ha]
          exact lastRateLE_foldl_some last t a
        · simp only [List.foldl_cons, if_neg ha]
          exact ih r hrt hrle

/-- Claim C6, what the code actually does: whenever a suitable RTS
candidate exists among the basic modes, the HT branch of DoGetRtsTxVector
hits the fatal NS_ASSERT(!rateFound) instead of completing, i.e. the
assertion is inverted with respect to the success path the claim (and the
spec) describe. -/
theorem c6_assert_fires (basic phy : List Nat) (last : Nat)
    (h : ∃ r ∈ basic, r ≤ last) :
    doGetRtsTxVectorSearch basic phy last =
      Except.error "assertion failed: rateFound is true" := by
  unfold doGetRtsTxVectorSearch
  have hs := lastRateLE_isSome last basic h
  cases hb : lastRateLE basic last with
  | none => rw [hb] at hs; cases hs
  | some r => simp [hb]

/-- Witness for the C6 evaluation: one basic mode of 6 Mbps and a reference
rate of 6.5 Mbps; a suitable candidate exists and the assertion fires. -/
theorem c6_assert_fires_witness :
    doGetRtsTxVectorSearch [6000000] [] 6500000 =
      Except.error "assertion failed: rateFound is true" :=
  c6_assert_fires [6000000] [] 6500000 ⟨6000000, by decide, by decide⟩

/-- While loop of InitSampleTable: linear probing from idx to the next
column slot whose entry is 0 (the unused marker), wrapping modulo the
column length.  The fuel bounds the number of steps; in every reachable
state a free slot exists within column-length steps (probeFree_free), where
the fueled loop coincides with the unbounded source loop. -/
def probeFree (col : List Nat) : Nat → Nat → Nat
  | 0, idx => idx
  | fuel + 1, idx =>
      if col.getD idx 0 ≠ 0 then probeFree col fuel ((idx + 1) % col.length)
      else idx

/-- One iteration of the InitSampleTable inner loop for value i: draw a
random number, reduce it modulo n, probe to the next free slot of the
column, and store i there. -/
def sampleStep (n : Nat) (rand : Nat → Nat) (col : List Nat) (i : Nat) :
    List Nat :=
  col.set (probeFree col n (rand i % n)) i

/-- One column of the sample table: insert the coding indices 0..n-1 in
order into an all-zero column of length n. -/
def fillColumn (rand : Nat → Nat) (n : Nat) : List Nat :=
  (List.range n).foldl (sampleStep n rand) (List.replicate n 0)

/-- MinstrelHtWifiManager InitSampleTable, represented column-major: the
source stores the table row-major as m_sampleTable[rateIndex][column], and
fills it column by column, each column consuming n fresh random draws; the
claim quantifies over columns, listed here directly. -/
def initSampleTable (rand : Nat → Nat) (n nSampleCol : Nat) :
    List (List Nat) :=
  (List.range nSampleCol).map
    (fun c => fillColumn (fun i => rand (c * n + i)) n)

/-- Counting after List.set at an in-bounds position: the overwritten value
loses one occurrence and the written value gains one. -/
theorem count_set_eq (a x : Nat) :
    ∀ (l : List Nat) (i : Nat), i < l.length →
      (l.set i a).count x + (if l.getD i 0 = x then 1 else 0) =
        l.count x + (if a = x then 1 else 0) := by
  intro l
  induction l with
  | nil =>
      intro i hi
      exact absurd hi (Nat.not_lt_zero i)
  | cons b t ih =>
      intro i hi
      cases i with
      | zero =>
          simp only [List.set_cons_zero, List.getD_cons_zero, List.count_cons,
            beq_iff_eq]
          split_ifs <;> omega
      | succ i2 =>
          have hi2 : i2 < t.length := by simpa using hi
          have h := ih i2 hi2
          simp only [List.set_cons_succ, List.getD_cons_succ, List.count_cons,
            beq_iff_eq]
          split_ifs at h ⊢ <;> omega

/-- Linear probing with enough fuel lands on a free slot whenever one is
reachable within the fuel. -/
theorem probeFree_free (col : List Nat) (n : Nat) (hlen : col.length = n)
    (hn : 0 < n) :
    ∀ (fuel idx : Nat), idx < n →
      (∃ k, k < fuel ∧ col.getD ((idx + k) % n) 0 = 0) →
      probeFree col fuel idx < n ∧
        col.getD (probeFree col fuel idx) 0 = 0 := by
  intro fuel
  induction fuel with
  | zero =>
      intro idx hidx h
      obtain ⟨k, hk, _⟩ := h
      exact absurd hk (Nat.not_lt_zero k)
  | succ f ih =>
      intro idx hidx h
      obtain ⟨k, hk, hzero⟩ := h
      unfold probeFree
      by_cases hfree : col.getD idx 0 ≠ 0
      · rw [if_pos hfree, hlen]
        have hk0 : k ≠ 0 := by
          intro h0
          subst h0
          rw [Nat.add_zero, Nat.mod_eq_of_lt hidx] at hzero
          exact hfree hzero
        obtain ⟨k2, rfl⟩ := Nat.exists_eq_succ_of_ne_zero hk0
        apply ih ((idx + 1) % n) (Nat.mod_lt _ hn)
        refine ⟨k2, by omega, ?_⟩
        rw [Nat.mod_add_mod]
        have harg : idx + 1 + k2 = idx + (k2 + 1) := by omega
        rw [harg]
        exact hzero
      · rw [if_neg hfree]
        exact ⟨hidx, not_not.mp hfree⟩

/-- If some slot of the column is free, a free slot is reachable from any
start index within n probing steps. -/
theorem exists_probe_target (col : List Nat) (n idx : Nat)
    (hidx : idx < n) (hfree : ∃ j, j < n ∧ col.getD j 0 = 0) :
    ∃ k, k < n ∧ col.getD ((idx + k) % n) 0 = 0 := by
  obtain ⟨j, hj, hz⟩ := hfree
  have hn : 0 < n := by omega
  refine ⟨(n + j - idx) % n, Nat.mod_lt _ hn, ?_⟩
  have h1 : (idx + (n + j - idx) % n) % n = (idx + (n + j - idx)) % n :=
    Nat.add_mod_mod idx (n + j - idx) n
  have h2 : idx + (n + j - idx) = n + j := by omega
  rw [h1, h2, Nat.add_mod_left, Nat.mod_eq_of_lt hj]
  exact hz

/-- State of one sample column after the values 0..k-1 have been inserted:
length n, each value 1..k-1 occurs exactly once, larger nonzero values do
not occur, and the zero entries (free slots, plus the slot of value 0 once
k is positive) number n - (k - 1). -/
def colInv (n k : Nat) (col : List Nat) : Prop :=
  col.length = n ∧
  col.count 0 = n - (k - 1) ∧
  (∀ v, 1 ≤ v → v < k → col.count v = 1) ∧
  (∀ v, 1 ≤ v → k ≤ v → col.count v = 0)

/-- Inserting value k preserves the column invariant. -/
theorem sampleStep_inv (rand : Nat → Nat) (n k : Nat) (hk : k < n)
    (col : List Nat) (h : colInv n k col) :
    colInv n (k + 1) (sampleStep n rand col k) := by
  unfold colInv at h
  obtain ⟨hlen, hcnt0, hcnt1, hcnt2⟩ := h
  have hn : 0 < n := by omega
  have hcnt0pos : 0 < col.count 0 := by rw [hcnt0]; omega
  have hmem : (0 : Nat) ∈ col := List.count_pos_iff.mp hcnt0pos
  obtain ⟨j, hjl, hjv⟩ := List.mem_iff_getElem.mp hmem
  have hjD : col.getD j 0 = 0 := by
    rw [List.getD_eq_getElem col 0 hjl]
    exact hjv
  have hstart : rand k % n < n := Nat.mod_lt _ hn
  obtain ⟨hslotlt, hslotfree⟩ :=
    probeFree_free col n hlen hn n (rand k % n) hstart
      (exists_probe_target col n (rand k % n) hstart ⟨j, by omega, hjD⟩)
  have hslotlen : probeFree col n (rand k % n) < col.length := by omega
  have hkey := fun x => count_set_eq k x col (probeFree col n (rand k % n))
    hslotlen
  unfold colInv sampleStep
  refine ⟨?_, ?_, ?_, ?_⟩
  · rw [List.length_set]
    exact hlen
  · have h0 := hkey 0
    rw [hslotfree] at h0
    norm_num at h0
    by_cases hk0 : k = 0
    · rw [if_pos hk0] at h0
      omega
    · rw [if_neg hk0] at h0
      omega
  · intro v h1v hvk1
    have hv := hkey v
    rw [hslotfree, if_neg (by omega : ¬ (0 : Nat) = v)] at hv
    by_cases hvk : v = k
    · have hold : col.count v = 0 := hcnt2 v h1v (by omega)
      rw [if_pos hvk.symm] at hv
      omega
    · have hold : col.count v = 1 := hcnt1 v h1v (by omega)
      rw [if_neg (by omega : ¬ k = v)] at hv
      omega
  · intro v h1v hk1v
    have hv := hkey v
    rw [hslotfree, if_neg (by omega : ¬ (0 : Nat) = v),
      if_neg (by omega : ¬ k = v)] at hv
    have hold : col.count v = 0 := hcnt2 v h1v (by omega)
    omega

/-- The column invariant holds after any prefix of insertions. -/
theorem fillColumn_inv (rand : Nat → Nat) (n : Nat) (hn : 0 < n) :
    ∀ k, k ≤ n →
      colInv n k
        ((List.range k).foldl (sampleStep n rand) (List.replicate n 0)) := by
  intro k
  induction k with
  | zero =>
      intro _
      unfold colInv
      simp only [List.range_zero, List.foldl_nil]
      refine ⟨List.length_replicate _ _, ?_, ?_, ?_⟩
      · simp only [List.count_replicate, beq_iff_eq]
        split_ifs <;> omega
      · intro v h1 h0
        omega
      · intro v h1 _
        simp only [List.count_replicate, beq_iff_eq]
        rw [if_neg (by omega)]
  | succ k2 ih =>
      intro hk
      rw [List.range_succ, List.foldl_append, List.foldl_cons, List.foldl_nil]
      exact sampleStep_inv rand n k2 (by omega) _ (ih (by omega))

/-- A column satisfying the full invariant is a permutation of 0..n-1. -/
theorem colInv_perm (n : Nat) (hn : 1 ≤ n) (col : List Nat)
    (h : colInv n n col) : col.Perm (List.range n) := by
  unfold colInv at h
  obtain ⟨hlen, h0, h1, h2⟩ := h
  rw [List.perm_iff_count]
  intro v
  by_cases hv0 : v = 0
  · subst hv0
    have hr : (List.range n).count 0 = 1 :=
      List.count_eq_one_of_mem (List.nodup_range n)
        (List.mem_range.mpr (by omega))
    rw [hr, h0]
    omega
  · by_cases hvn : v < n
    · rw [h1 v (by omega) hvn,
        List.count_eq_one_of_mem (List.nodup_range n) (List.mem_range.mpr hvn)]
    · rw [h2 v (by omega) (by omega),
        List.count_eq_zero_of_not_mem (by simpa using hvn)]

/-- Claim C7: after InitSampleTable runs for a station with n supported MCS
indices, n at least 1, every column of the sample table is a permutation of
0..n-1 (each coding index exactly once, no duplicates, no omissions), for
every random sequence drawn by the generator. -/
theorem c7_sample_columns_perm (n nCol : Nat) (hn : 1 ≤ n)
    (rand : Nat → Nat) :
    ∀ col ∈ initSampleTable rand n nCol, col.Perm (List.range n) := by
  intro col hcol
  obtain ⟨c, hc, rfl⟩ := List.mem_map.mp hcol
  exact colInv_perm n hn _
    (fillColumn_inv (fun i => rand (c * n + i)) n (by omega) n (Nat.le_refl n))

/-- Witness for claim C7: three MCS indices, two columns, a concrete random
sequence, checked on the first column of the generated table. -/
theorem c7_sample_columns_perm_witness :
    1 ≤ 3 ∧
      (fillColumn (fun i => 5 * i + 3) 3).Perm (List.range 3) :=
  ⟨by decide,
    c7_sample_columns_perm 3 2 (by decide) (fun i => 5 * i + 3)
      (fillColumn (fun i => 5 * i + 3) 3) (by decide)⟩
